import Mathlib

/-!
# Verification of the nightmaregl text layout engine

A shallow embedding of the text layout and glyph-atlas subsystem of the
`nightmaregl` repository (`src/text.rs`, with supporting code in
`src/transform.rs` and `src/sprite.rs`), together with theorems settling the
specification claims about it.

Coordinates that the Rust source stores in `f32` are modelled as rationals
(`ℚ`); the arithmetic the layout engine performs on them is addition,
subtraction, multiplication and division, so the algebraic structure is
preserved exactly.  Pixel rectangles (`rusttype::Rect<i32>`) are modelled with
integer coordinates.

The font itself (`rusttype::Font`) is an external collaborator: the engine
only consults it through per-glyph advance widths, pair kerning, the glyph's
bounding box and the vertical line advance.  A `Font` here is therefore a
record of those query functions.
-/

/-- A 2-d point / vector with rational coordinates (models `Point<f32>`,
`Position<f32>` and `Size<f32>` from the source, which are all plain pairs of
`f32` coordinates). -/
structure Pt where
  x : ℚ
  y : ℚ
deriving DecidableEq, Repr

/-- An integer pixel rectangle (models `rusttype::Rect<i32>`, as returned by
`PositionedGlyph::pixel_bounding_box`). -/
structure IRect where
  minX : ℤ
  minY : ℤ
  maxX : ℤ
  maxY : ℤ
deriving DecidableEq, Repr

/-- A rational rectangle (models `rusttype::Rect<f32>`, the normalized
texture-coordinate rectangles returned by the glyph cache). -/
structure QRect where
  minX : ℚ
  minY : ℚ
  maxX : ℚ
  maxY : ℚ
deriving DecidableEq, Repr

/-- The font interface the layout engine consumes.  `rusttype` glyph ids are
opaque equality-comparable values; we model them as naturals.  `bbox g` is the
exact bounding box of glyph `g` relative to the pen position (`none` for
glyphs with no outline, such as a space), at the font's fixed scale. -/
structure Font where
  glyphId : Char → ℕ
  advanceWidth : ℕ → ℚ
  kern : ℕ → ℕ → ℚ
  bbox : ℕ → Option QRect
  advanceHeight : ℚ

/-- Rust's `char::is_control`: the Unicode `Cc` category, i.e. U+0000 to
U+001F and U+007F to U+009F. -/
def charIsControl (c : Char) : Bool :=
  c.toNat < 32 || (127 ≤ c.toNat && c.toNat ≤ 159)

/-- The pixel bounding box of glyph `g` positioned with its pen at `caret`
(models `PositionedGlyph::pixel_bounding_box` of the external `rusttype`
crate: the exact box shifted by the position and conservatively rounded to
whole pixels). -/
def pixelBB (f : Font) (g : ℕ) (caret : Pt) : Option IRect :=
  (f.bbox g).map fun r =>
    ⟨⌊caret.x + r.minX⌋, ⌊caret.y + r.minY⌋, ⌈caret.x + r.maxX⌉, ⌈caret.y + r.maxY⌉⟩

/-- Word wrapping policy (`WordWrap` in `src/text.rs`): `normal w` breaks a
line on a word boundary at max width `w` (`WordWrap::Normal(u32)`), `noWrap`
does no wrapping. -/
inductive WordWrap where
  | normal : ℕ → WordWrap
  | noWrap : WordWrap
deriving DecidableEq, Repr

/-- The caret / previous-glyph state mutated during a layout pass
(`Text.caret` and `Text.previous_glyph_id` in the source). -/
structure LayoutState where
  caret : Pt
  prev : Option ℕ
deriving DecidableEq, Repr

/-- A positioned glyph: glyph id plus the pen position it was positioned at
(models `rusttype::PositionedGlyph`, whose bounding box is recovered through
`pixelBB`). -/
structure PGlyph where
  id : ℕ
  pos : Pt
deriving DecidableEq, Repr

/-- The kerning adjustment applied before positioning a glyph: `pair_kerning`
against `previous_glyph_id` when there is one (`src/text.rs` lines 205-210). -/
def kernAdj (f : Font) (prev : Option ℕ) (g : ℕ) : ℚ :=
  match prev with
  | some p => f.kern p g
  | none => 0

/-- The line-overflow test of `src/text.rs` lines 218-229: under
`WordWrap::Normal(w)`, a glyph whose pixel bounding box ends past `w` forces
an abort; glyphs without a bounding box, and the `NoWrap` policy, never do. -/
def abortCheck (f : Font) (wrap : WordWrap) (g : ℕ) (caret : Pt) : Bool :=
  match pixelBB f g caret, wrap with
  | some bb, WordWrap.normal w => decide ((w : ℤ) < bb.maxX)
  | _, _ => false

/-- Embedding of `Text::position_text` from `src/text.rs` (lines 179-239).  Walks the
characters of one segment: `'\r'` is skipped; `'\n'` moves the caret to
`(0, y + advance_height)` and emits nothing; any other character is kerned
against `previous_glyph_id`, positioned at the caret, and — under
`WordWrap::Normal(w)` — aborts the whole segment (returning `none` with the
caret already moved to the next line) when its pixel bounding box ends past
`w`.  On success the caret has advanced past every character and the
positioned glyphs are returned in order. -/
def position_text (f : Font) (wrap : WordWrap) :
    List Char → LayoutState → Option (List PGlyph) × LayoutState
  | [], st => (some [], st)
  | c :: rest, st =>
    if charIsControl c ∧ c = '\r' then
      position_text f wrap rest st
    else if charIsControl c ∧ c = '\n' then
      position_text f wrap rest ⟨⟨0, st.caret.y + f.advanceHeight⟩, st.prev⟩
    else
      let gid := f.glyphId c
      let caret1 : Pt := ⟨st.caret.x + kernAdj f st.prev gid, st.caret.y⟩
      if abortCheck f wrap gid caret1 then
        (none, ⟨⟨0, caret1.y + f.advanceHeight⟩, some gid⟩)
      else
        match position_text f wrap rest ⟨⟨caret1.x + f.advanceWidth gid, caret1.y⟩, some gid⟩ with
        | (some gs, st') => (some (⟨gid, caret1⟩ :: gs), st')
        | (none, st') => (none, st')

/-- The shared body of `Text::layout_normal_wrap` and `Text::no_wrap`
(`src/text.rs` lines 241-281; the two functions are textually identical apart
from the wrap policy they pass down).  `words` is the output of
`text.split_word_bounds()` from the external `unicode-segmentation` crate:
the input split into unicode word-boundary segments.  Each segment is
positioned with `position_text`; if that aborts (`none`), the very same
segment is retried once from the fresh line; a segment whose retry also
aborts contributes no glyphs. -/
def wordsLayout (f : Font) (wrap : WordWrap) :
    List (List Char) → LayoutState → List PGlyph × LayoutState
  | [], st => ([], st)
  | w :: ws, st =>
    let r1 := position_text f wrap w st
    let r2 := match r1.1 with
      | some g => (some g, r1.2)
      | none => position_text f wrap w r1.2
    let tail := wordsLayout f wrap ws r2.2
    ((match r2.1 with | some g => g | none => []) ++ tail.1, tail.2)

/-- Embedding of `Text::layout_normal_wrap` (`src/text.rs` lines 241-262). -/
def layout_normal_wrap (f : Font) (width : ℕ) (words : List (List Char))
    (st : LayoutState) : List PGlyph × LayoutState :=
  wordsLayout f (WordWrap.normal width) words st

/-- Embedding of `Text::no_wrap` (`src/text.rs` lines 264-281). -/
def no_wrap (f : Font) (words : List (List Char)) (st : LayoutState) :
    List PGlyph × LayoutState :=
  wordsLayout f WordWrap.noWrap words st

/-- Number of `'\n'` characters in a list. -/
def countNL (s : List Char) : ℕ :=
  (s.filter (fun c => c = '\n')).length

/-- The glyph ids a character run produces: every character except `'\r'`
(which the layout loop skips) maps to its glyph. -/
def glyphIdsOf (f : Font) (s : List Char) : List ℕ :=
  (s.filter (fun c => c ≠ '\r')).map f.glyphId

/-- Sum of per-glyph advance widths. -/
def sumAdv (f : Font) (ids : List ℕ) : ℚ :=
  (ids.map f.advanceWidth).sum

/-- Sum of kerning adjustments between consecutive glyph pairs. -/
def sumKern (f : Font) : List ℕ → ℚ
  | g1 :: g2 :: rest => f.kern g1 g2 + sumKern f (g2 :: rest)
  | _ => 0

/-- Kerning-adjusted advance of a run of glyphs starting from a given
previous-glyph state. -/
def runAdv (f : Font) : Option ℕ → List ℕ → ℚ
  | _, [] => 0
  | prev, g :: gs => kernAdj f prev g + f.advanceWidth g + runAdv f (some g) gs

theorem toNat_lit_a : 'a'.toNat = 97 := rfl

theorem toNat_lit_b : 'b'.toNat = 98 := rfl

theorem toNat_lit_c : 'c'.toNat = 99 := rfl

theorem toNat_lit_space : ' '.toNat = 32 := rfl

/-- A monospace test font: every character is its own glyph, advance 8, no
kerning, every glyph an 8×8 box at the pen. -/
def monoFont : Font :=
  ⟨fun c => c.toNat, fun _ => 8, fun _ _ => 0, fun _ => some ⟨0, 0, 8, 8⟩, 10⟩

-- Sanity check of the layout loop on the concrete font.
example :
    (position_text monoFont WordWrap.noWrap ['a', 'b'] ⟨⟨0, 0⟩, none⟩).2.caret.x = 16 := by
  norm_num [position_text, charIsControl, pixelBB, kernAdj, abortCheck, monoFont]
  decide

-- A word three 8px glyphs wide aborts under a 20px limit, leaving the caret
-- on a fresh line and the previous-glyph id set to the aborting glyph.
example :
    position_text monoFont (WordWrap.normal 20) ['a', 'b', 'c'] ⟨⟨0, 0⟩, none⟩
      = (none, ⟨⟨0, 10⟩, some 99⟩) := by
  norm_num [position_text, charIsControl, pixelBB, kernAdj, abortCheck, monoFont]
  decide

/-!
## The glyph atlas cache

The repository delegates the atlas to the external `rusttype::gpu_cache`
crate (`FontCache.inner : Cache` in `src/text.rs`), whose source is not part
of this repository.  The spec describes the `GlyphAtlasCache` component in
§4.3; the model below follows that description.
-/

/-- An atlas pixel rectangle: origin and size in atlas pixels. -/
structure ARect where
  x : ℕ
  y : ℕ
  w : ℕ
  h : ℕ
deriving DecidableEq, Repr

/-- Modelled from the spec: the `GlyphAtlasCache` state (§4.3; implemented in
the repository by the external `rusttype::gpu_cache::Cache`, whose source is
not in `src/`).  A fixed-size atlas packed by shelves: `curX`, `curY`, `rowH`
are the shelf cursor, `slots` the resident glyphs in least-recently-packed
order (front oldest) with their atlas rectangles. -/
structure Atlas where
  width : ℕ
  height : ℕ
  curX : ℕ
  curY : ℕ
  rowH : ℕ
  slots : List (ℕ × ARect)
deriving DecidableEq, Repr

/-- An empty atlas of the given dimensions. -/
def Atlas.empty (w h : ℕ) : Atlas :=
  ⟨w, h, 0, 0, 0, []⟩

/-- Modelled from the spec: shelf/row packing (§4.3) — a new glyph goes
left-to-right along the current shelf; when it does not fit, a new shelf
starts below the current one; `none` when no shelf space remains. -/
def Atlas.place (a : Atlas) (w h : ℕ) : Option (ARect × Atlas) :=
  if a.curX + w ≤ a.width ∧ a.curY + h ≤ a.height then
    some (⟨a.curX, a.curY, w, h⟩,
      { a with curX := a.curX + w, rowH := max a.rowH h })
  else if w ≤ a.width ∧ a.curY + a.rowH + h ≤ a.height then
    some (⟨0, a.curY + a.rowH, w, h⟩,
      { a with curX := w, curY := a.curY + a.rowH, rowH := h })
  else
    none

/-- Evict every resident slot and reset the shelf cursor. -/
def Atlas.clear (a : Atlas) : Atlas :=
  { a with curX := 0, curY := 0, rowH := 0, slots := [] }

/-- Modelled from the spec: insert one queued glyph (§4.3).  A glyph already
resident is left alone; otherwise it is shelf-packed, evicting the
least-recently-used residents when no space remains (modelled coarsely: when
the shelf cursor cannot place the glyph, all older residents are evicted and
packing restarts from the empty atlas — the eviction granularity does not
affect the error condition, which the claims are about); `none` — the
`AtlasOverflow` error — only when the glyph alone does not fit the empty
atlas. -/
def Atlas.insertGlyph (a : Atlas) (g w h : ℕ) : Option Atlas :=
  if (a.slots.map Prod.fst).contains g then
    some a
  else
    match a.place w h with
    | some (r, a') => some { a' with slots := a.slots ++ [(g, r)] }
    | none =>
      match (a.clear).place w h with
      | some (r, a') => some { a' with slots := [(g, r)] }
      | none => none

/-- Modelled from the spec: `flush` (§4.3) — pack every queued glyph
(`(glyph id, bitmap width, bitmap height)` triples), failing only when
`Atlas.insertGlyph` reports `AtlasOverflow`. -/
def Atlas.flush (a : Atlas) : List (ℕ × ℕ × ℕ) → Option Atlas
  | [] => some a
  | (g, w, h) :: rest =>
    match a.insertGlyph g w h with
    | some a' => a'.flush rest
    | none => none

/-- Modelled from the spec: `resolve` (§4.3) — the atlas rectangle of a
resident glyph, `none` after eviction. -/
def Atlas.resolve (a : Atlas) (g : ℕ) : Option ARect :=
  (a.slots.find? (fun s => s.1 = g)).map Prod.snd

/-- The normalized texture-coordinate rectangle of an atlas rectangle, as the
external cache's `rect_for` returns it: the pixel rectangle divided by the
atlas dimensions. -/
def normRect (w h : ℕ) (r : ARect) : QRect :=
  ⟨(r.x : ℚ) / w, (r.y : ℚ) / h, ((r.x : ℚ) + r.w) / w, ((r.y : ℚ) + r.h) / h⟩

/-!
## Quad composition and the `Text` orchestrator
-/

/-- The fields of `Sprite<f32>` that `Text::layout` writes (`src/sprite.rs`;
the remaining fields keep their defaults and are not consulted by the
claims): the texture sub-rectangle and the on-screen size. -/
structure SpriteQ where
  texOrigin : Pt
  texSize : Pt
  size : Pt
deriving DecidableEq, Repr

/-- The fields of `Transform<f32>` that `Text::layout` and `Text::position`
write (`src/transform.rs`): translation and scale. -/
structure TransformQ where
  translation : Pt
  scale : Pt
deriving DecidableEq, Repr

/-- The per-glyph sprite construction of `Text::layout` (`src/text.rs` lines
153-174): given the cache's normalized rectangle `uv`, the screen pixel
rectangle `vert`, the atlas width `w` (`self.cache.size.width`, used as the
`scale`) and the text's stored `position`, build the sprite and transform
exactly as the source does: `tex_offset = uv.min * scale`,
`texture_rect.size = uv.size * scale`, `pos = (vert.min.x, -vert.max.y) +
position`, `transform.translation = pos` (via `translate_mut`, which
assigns), `transform.scale = (scale, scale)`. -/
def composeSprite (w : ℚ) (position : Pt) (uv : QRect) (vert : IRect) :
    SpriteQ × TransformQ :=
  let texOffset : Pt := ⟨uv.minX * w, uv.minY * w⟩
  let size : Pt := ⟨uv.maxX - uv.minX, uv.maxY - uv.minY⟩
  let pos : Pt := ⟨(vert.minX : ℚ) + position.x, -(vert.maxY : ℚ) + position.y⟩
  (⟨texOffset, ⟨size.x * w, size.y * w⟩, size⟩, ⟨pos, ⟨w, w⟩⟩)

/-- One step of the `glyphs.iter().filter_map(rect_for).flatten().map(...)`
pipeline in `Text::layout`: a glyph contributes a sprite only when the
external cache has both a rectangle for it (`rect_for` errs for uncached
glyphs — dropped by `.ok()`) and a screen rectangle (`rect_for` yields `None`
for glyphs without a bounding box — dropped by `.flatten()`). -/
def spriteFor (f : Font) (a : Atlas) (position : Pt) (pg : PGlyph) :
    Option (SpriteQ × TransformQ) :=
  match a.resolve pg.id, pixelBB f pg.id pg.pos with
  | some r, some vert =>
    some (composeSprite (a.width : ℚ) position (normRect a.width a.height r) vert)
  | _, _ => none

/-- The glyphs `Text::layout` effectively queues into the atlas, with their
bitmap sizes.  The source calls `queue_glyph` on every positioned glyph; the
external cache's `queue_glyph` (spec §3: a glyph with no visible bounding box
is never queued) keeps only those with a pixel bounding box, whose dimensions
are the bitmap size. -/
def queuedOf (f : Font) (pgs : List PGlyph) : List (ℕ × ℕ × ℕ) :=
  pgs.filterMap fun pg =>
    (pixelBB f pg.id pg.pos).map fun bb =>
      (pg.id, (bb.maxX - bb.minX).toNat, (bb.maxY - bb.minY).toNat)

/-- The observable state of a `Text` value (`src/text.rs` lines 55-63). -/
structure TextState where
  wrap : WordWrap
  position : Pt
  caret : Pt
  prev : Option ℕ
  sprites : List (SpriteQ × TransformQ)
  atlas : Atlas
deriving DecidableEq, Repr

/-- Embedding of `Text::set_text` followed by `Text::layout` (lines 94-99
and 131-177).  The caret and previous-glyph id are reset, the text —
pre-split into word segments by the external `unicode-segmentation` crate —
is positioned under the stored wrap policy, the visible glyphs are queued and
flushed into the atlas, and on success the sprite list is rebuilt.  When the
flush fails the error is propagated by `?`: the sprite list and atlas keep
their old values, but the caret and previous-glyph id have already been
overwritten by the positioning pass.  The boolean result is `true` when the
call returned an error. -/
def set_text (f : Font) (st : TextState) (words : List (List Char)) :
    TextState × Bool :=
  let r := wordsLayout f st.wrap words ⟨⟨0, 0⟩, none⟩
  let pgs := r.1
  let ls := r.2
  match st.atlas.flush (queuedOf f pgs) with
  | none => ({ st with caret := ls.caret, prev := ls.prev }, true)
  | some a' =>
    ({ st with caret := ls.caret, prev := ls.prev, atlas := a',
               sprites := pgs.filterMap (spriteFor f a' st.position) }, false)

/-- Embedding of `Text::position` (`src/text.rs` lines 102-107): store the new position
and call `Transform::translate_mut` — which assigns the translation
(`src/transform.rs` lines 52-54) — on every sprite transform. -/
def textPosition (p : Pt) (st : TextState) : TextState :=
  { st with position := p,
            sprites := st.sprites.map fun s => (s.1, { s.2 with translation := p }) }

/-!
## Basic lemmas about the layout loop
-/

theorem position_text_nil (f : Font) (wrap : WordWrap) (st : LayoutState) :
    position_text f wrap [] st = (some [], st) := rfl

theorem position_text_cr (f : Font) (wrap : WordWrap) (rest : List Char)
    (st : LayoutState) :
    position_text f wrap ('\r' :: rest) st = position_text f wrap rest st := by
  simp only [position_text]
  rw [if_pos (show charIsControl '\r' = true ∧ True from ⟨by decide, trivial⟩)]

theorem position_text_nl (f : Font) (wrap : WordWrap) (rest : List Char)
    (st : LayoutState) :
    position_text f wrap ('\n' :: rest) st
      = position_text f wrap rest ⟨⟨0, st.caret.y + f.advanceHeight⟩, st.prev⟩ := by
  have hc2 : ¬(charIsControl '\n' ∧ '\n' = '\r') := by decide
  simp only [position_text, if_neg hc2]
  rw [if_pos (show charIsControl '\n' = true ∧ True from ⟨by decide, trivial⟩)]

theorem position_text_glyph (f : Font) (wrap : WordWrap) (c : Char)
    (rest : List Char) (st : LayoutState)
    (h1 : ¬(charIsControl c ∧ c = '\r')) (h2 : ¬(charIsControl c ∧ c = '\n')) :
    position_text f wrap (c :: rest) st =
      if abortCheck f wrap (f.glyphId c)
          ⟨st.caret.x + kernAdj f st.prev (f.glyphId c), st.caret.y⟩ then
        (none, ⟨⟨0, st.caret.y + f.advanceHeight⟩, some (f.glyphId c)⟩)
      else
        match position_text f wrap rest
            ⟨⟨st.caret.x + kernAdj f st.prev (f.glyphId c)
                + f.advanceWidth (f.glyphId c), st.caret.y⟩,
              some (f.glyphId c)⟩ with
        | (some gs, st') =>
          (some (⟨f.glyphId c,
            ⟨st.caret.x + kernAdj f st.prev (f.glyphId c), st.caret.y⟩⟩ :: gs), st')
        | (none, st') => (none, st') := by
  simp only [position_text, if_neg h1, if_neg h2]

theorem abortCheck_noWrap (f : Font) (g : ℕ) (caret : Pt) :
    abortCheck f WordWrap.noWrap g caret = false := by
  unfold abortCheck
  cases pixelBB f g caret <;> rfl

theorem abortCheck_no_bbox (f : Font) (wrap : WordWrap) (g : ℕ) (caret : Pt)
    (h : f.bbox g = none) : abortCheck f wrap g caret = false := by
  unfold abortCheck pixelBB
  rw [h]
  rfl

/-- Under `NoWrap` the positioning loop never aborts. -/
theorem position_text_noWrap_isSome (f : Font) (s : List Char) (st : LayoutState) :
    ∃ gs st', position_text f WordWrap.noWrap s st = (some gs, st') := by
  induction s generalizing st with
  | nil => exact ⟨[], st, rfl⟩
  | cons c rest ih =>
    by_cases h1 : charIsControl c ∧ c = '\r'
    · rw [h1.2, position_text_cr]; exact ih st
    · by_cases h2 : charIsControl c ∧ c = '\n'
      · rw [h2.2, position_text_nl]; exact ih _
      · rw [position_text_glyph f _ c rest st h1 h2, if_neg (by simp [abortCheck_noWrap])]
        obtain ⟨gs, st', hrec⟩ := ih
          (⟨⟨st.caret.x + kernAdj f st.prev (f.glyphId c)
              + f.advanceWidth (f.glyphId c), st.caret.y⟩, some (f.glyphId c)⟩)
        rw [hrec]
        exact ⟨_, st', rfl⟩

/-- Positioning a concatenation runs the two halves in sequence; an abort in
the first half aborts the whole run. -/
theorem position_text_append (f : Font) (wrap : WordWrap) (s t : List Char)
    (st : LayoutState) :
    position_text f wrap (s ++ t) st =
      match position_text f wrap s st with
      | (some gs, st1) =>
        (match position_text f wrap t st1 with
         | (some gs2, st2) => (some (gs ++ gs2), st2)
         | (none, st2) => (none, st2))
      | (none, st1) => (none, st1) := by
  induction s generalizing st with
  | nil =>
    simp only [List.nil_append, position_text_nil]
    rcases h : position_text f wrap t st with ⟨o, st2⟩
    cases o <;> simp
  | cons c rest ih =>
    by_cases h1 : charIsControl c ∧ c = '\r'
    · rw [h1.2, List.cons_append, position_text_cr, position_text_cr]
      exact ih st
    · by_cases h2 : charIsControl c ∧ c = '\n'
      · rw [h2.2, List.cons_append, position_text_nl, position_text_nl]
        exact ih _
      · rw [List.cons_append, position_text_glyph f wrap c (rest ++ t) st h1 h2,
          position_text_glyph f wrap c rest st h1 h2]
        by_cases ha : abortCheck f wrap (f.glyphId c)
            ⟨st.caret.x + kernAdj f st.prev (f.glyphId c), st.caret.y⟩
        · rw [if_pos ha, if_pos ha]
        · rw [if_neg ha, if_neg ha, ih]
          rcases hr : position_text f wrap rest
              ⟨⟨st.caret.x + kernAdj f st.prev (f.glyphId c)
                  + f.advanceWidth (f.glyphId c), st.caret.y⟩,
                some (f.glyphId c)⟩ with ⟨o1, st1⟩
          cases o1 with
          | none => simp
          | some gs1 =>
            rcases ht : position_text f wrap t st1 with ⟨o2, st2⟩
            cases o2 <;> simp [ht]

/-- Under `NoWrap`, laying out word segments one at a time is the same as
positioning their concatenation in one run (no segment ever aborts, so the
retry branch never fires). -/
theorem no_wrap_words_join (f : Font) (words : List (List Char)) (st : LayoutState) :
    wordsLayout f WordWrap.noWrap words st =
      ((position_text f WordWrap.noWrap words.flatten st).1.getD [],
       (position_text f WordWrap.noWrap words.flatten st).2) := by
  induction words generalizing st with
  | nil => simp [wordsLayout, position_text_nil]
  | cons w ws ih =>
    obtain ⟨gs, st1, hw⟩ := position_text_noWrap_isSome f w st
    obtain ⟨gs2, st2, hj⟩ := position_text_noWrap_isSome f ws.flatten st1
    simp only [wordsLayout, hw, ih st1, hj, List.flatten_cons, position_text_append, Option.getD_some]

/-- Under `NoWrap`, on a run without newlines, the caret advances in `x` by
the kerning-adjusted advances of the run's glyphs and keeps its `y`. -/
theorem position_text_noWrap_caret (f : Font) (s : List Char) (st : LayoutState)
    (h : '\n' ∉ s) :
    (position_text f WordWrap.noWrap s st).2.caret.x
        = st.caret.x + runAdv f st.prev (glyphIdsOf f s)
      ∧ (position_text f WordWrap.noWrap s st).2.caret.y = st.caret.y := by
  induction s generalizing st with
  | nil => simp [position_text_nil, runAdv, glyphIdsOf]
  | cons c rest ih =>
    have hrest : '\n' ∉ rest := fun hm => h (List.mem_cons_of_mem c hm)
    by_cases h1 : charIsControl c ∧ c = '\r'
    · rw [h1.2, position_text_cr]
      have hids : glyphIdsOf f ('\r' :: rest) = glyphIdsOf f rest := by
        simp [glyphIdsOf]
      rw [hids]
      exact ih st hrest
    · have h2 : ¬(charIsControl c ∧ c = '\n') := by
        rintro ⟨-, rfl⟩
        exact h (List.mem_cons_self _ _)
      have hcr : c ≠ '\r' := by
        rintro rfl
        exact h1 ⟨by decide, rfl⟩
      rw [position_text_glyph f _ c rest st h1 h2,
        if_neg (by simp [abortCheck_noWrap])]
      obtain ⟨gs, st', hrec⟩ := position_text_noWrap_isSome f rest
        ⟨⟨st.caret.x + kernAdj f st.prev (f.glyphId c)
            + f.advanceWidth (f.glyphId c), st.caret.y⟩, some (f.glyphId c)⟩
      have hih := ih ⟨⟨st.caret.x + kernAdj f st.prev (f.glyphId c)
            + f.advanceWidth (f.glyphId c), st.caret.y⟩, some (f.glyphId c)⟩ hrest
      rw [hrec] at hih ⊢
      have hids : glyphIdsOf f (c :: rest) = f.glyphId c :: glyphIdsOf f rest := by
        simp [glyphIdsOf, hcr]
      rw [hids]
      refine ⟨?_, hih.2⟩
      rw [hih.1]
      simp [runAdv]
      ring

/-- The kerning-adjusted advance of a run decomposes into the sum of advances
plus the sum of pairwise kerns (plus the kern against the incoming previous
glyph, when there is one). -/
theorem runAdv_eq_sums (f : Font) : ∀ (ids : List ℕ) (prev : Option ℕ),
    runAdv f prev ids
      = (match prev, ids with | some p, g :: _ => f.kern p g | _, _ => 0)
        + sumAdv f ids + sumKern f ids := by
  intro ids
  induction ids with
  | nil => intro prev; cases prev <;> simp [runAdv, sumAdv, sumKern]
  | cons g gs ih =>
    intro prev
    rw [runAdv, ih (some g)]
    cases gs with
    | nil => cases prev <;> simp [kernAdj, sumAdv, sumKern]
    | cons g2 rest => cases prev <;> simp [kernAdj, sumAdv, sumKern] <;> ring

/-- The font of the spec's `NoWrap` scenario: per-glyph advance 8, kerning
between the glyphs of `'a'` and `'b'` equal to −1, everything else 0. -/
def abFont : Font :=
  ⟨fun c => c.toNat, fun _ => 8,
   fun p n => if p = 97 ∧ n = 98 then -1 else 0,
   fun _ => some ⟨0, 0, 8, 8⟩, 10⟩

/-- C3.  For every string without newlines laid out under `NoWrap` from the
reset state `set_text` establishes, the final caret `x` is the sum of the
glyph advances plus the sum of the kerning adjustments between consecutive
glyph pairs; and in the spec's concrete scenario — text `"ab"`, advance 8px
per glyph, kerning(a,b) = −1px — the caret `x` is 15. -/
theorem c3_noWrap_caret_is_advance_plus_kerning :
    (∀ (f : Font) (words : List (List Char)),
      '\n' ∉ words.flatten →
      (no_wrap f words ⟨⟨0, 0⟩, none⟩).2.caret.x
        = sumAdv f (glyphIdsOf f words.flatten)
          + sumKern f (glyphIdsOf f words.flatten))
    ∧ (no_wrap abFont [['a', 'b']] ⟨⟨0, 0⟩, none⟩).2.caret.x = 15 := by
  constructor
  · intro f words h
    rw [no_wrap, no_wrap_words_join]
    have hc := (position_text_noWrap_caret f words.flatten ⟨⟨0, 0⟩, none⟩ h).1
    simp only [hc, runAdv_eq_sums]
    ring
  · norm_num [no_wrap, wordsLayout, position_text, charIsControl, pixelBB,
      kernAdj, abortCheck, abFont, toNat_lit_a, toNat_lit_b]

/-- Witness for C3: a two-glyph word under `NoWrap` with the hypotheses of
the theorem discharged concretely; the caret lands at the predicted sum. -/
theorem c3_witness :
    ('\n' ∉ ([['a', 'b']] : List (List Char)).flatten)
    ∧ (no_wrap monoFont [['a', 'b']] ⟨⟨0, 0⟩, none⟩).2.caret.x
        = sumAdv monoFont (glyphIdsOf monoFont [['a', 'b']].flatten)
          + sumKern monoFont (glyphIdsOf monoFont [['a', 'b']].flatten) :=
  ⟨by decide, c3_noWrap_caret_is_advance_plus_kerning.1 monoFont [['a', 'b']] (by decide)⟩

theorem countNL_nil : countNL [] = 0 := rfl

theorem countNL_cons_nl (s : List Char) : countNL ('\n' :: s) = countNL s + 1 := by
  simp [countNL]

theorem countNL_cons_of_ne (c : Char) (s : List Char) (h : c ≠ '\n') :
    countNL (c :: s) = countNL s := by
  simp [countNL, h]

/-- A single positioning run never moves the caret up. -/
theorem position_text_caret_y_mono (f : Font) (wrap : WordWrap)
    (s : List Char) (st : LayoutState) (h : 0 ≤ f.advanceHeight) :
    st.caret.y ≤ (position_text f wrap s st).2.caret.y := by
  induction s generalizing st with
  | nil => simp [position_text_nil]
  | cons c rest ih =>
    by_cases h1 : charIsControl c ∧ c = '\r'
    · rw [h1.2, position_text_cr]; exact ih st
    · by_cases h2 : charIsControl c ∧ c = '\n'
      · rw [h2.2, position_text_nl]
        calc st.caret.y ≤ st.caret.y + f.advanceHeight := by linarith
          _ ≤ _ := ih _
      · rw [position_text_glyph f wrap c rest st h1 h2]
        by_cases ha : abortCheck f wrap (f.glyphId c)
            ⟨st.caret.x + kernAdj f st.prev (f.glyphId c), st.caret.y⟩
        · rw [if_pos ha]; simpa using by linarith
        · rw [if_neg ha]
          rcases hr : position_text f wrap rest
              ⟨⟨st.caret.x + kernAdj f st.prev (f.glyphId c)
                  + f.advanceWidth (f.glyphId c), st.caret.y⟩,
                some (f.glyphId c)⟩ with ⟨o, st'⟩
          have hy := ih ⟨⟨st.caret.x + kernAdj f st.prev (f.glyphId c)
                  + f.advanceWidth (f.glyphId c), st.caret.y⟩, some (f.glyphId c)⟩
          rw [hr] at hy
          cases o <;> simpa using hy

/-- A whole word-by-word layout pass never moves the caret up. -/
theorem wordsLayout_caret_y_mono (f : Font) (wrap : WordWrap)
    (words : List (List Char)) (st : LayoutState) (h : 0 ≤ f.advanceHeight) :
    st.caret.y ≤ (wordsLayout f wrap words st).2.caret.y := by
  induction words generalizing st with
  | nil => simp [wordsLayout]
  | cons w ws ih =>
    rcases hr : position_text f wrap w st with ⟨o, st1⟩
    have hy1 : st.caret.y ≤ st1.caret.y := by
      have := position_text_caret_y_mono f wrap w st h
      rw [hr] at this; exact this
    cases o with
    | some gs =>
      simp only [wordsLayout, hr]
      exact le_trans hy1 (ih st1)
    | none =>
      rcases hr2 : position_text f wrap w st1 with ⟨o2, st2⟩
      have hy2 : st1.caret.y ≤ st2.caret.y := by
        have := position_text_caret_y_mono f wrap w st1 h
        rw [hr2] at this; exact this
      simp only [wordsLayout, hr, hr2]
      cases o2 <;> simpa using le_trans hy1 (le_trans hy2 (ih st2))

/-- When a run completes, the caret `y` has advanced by exactly one
`advance_height` per newline character. -/
theorem position_text_some_caret_y (f : Font) (wrap : WordWrap) :
    ∀ (s : List Char) (st : LayoutState) (gs : List PGlyph) (st' : LayoutState),
    position_text f wrap s st = (some gs, st') →
    st'.caret.y = st.caret.y + f.advanceHeight * countNL s := by
  intro s
  induction s with
  | nil =>
    intro st gs st' hp
    rw [position_text_nil] at hp
    cases hp
    simp [countNL_nil]
  | cons c rest ih =>
    intro st gs st' hp
    by_cases h1 : charIsControl c ∧ c = '\r'
    · rw [h1.2, position_text_cr] at hp
      rw [h1.2, countNL_cons_of_ne _ _ (by decide)]
      exact ih st gs st' hp
    · by_cases h2 : charIsControl c ∧ c = '\n'
      · rw [h2.2, position_text_nl] at hp
        rw [h2.2, countNL_cons_nl]
        have := ih _ gs st' hp
        simp only [this]
        push_cast
        ring
      · have hnl : c ≠ '\n' := fun hc => h2 ⟨by rw [hc]; decide, hc⟩
        rw [position_text_glyph f wrap c rest st h1 h2] at hp
        by_cases ha : abortCheck f wrap (f.glyphId c)
            ⟨st.caret.x + kernAdj f st.prev (f.glyphId c), st.caret.y⟩
        · rw [if_pos ha] at hp; cases hp
        · rw [if_neg ha] at hp
          rcases hr : position_text f wrap rest
              ⟨⟨st.caret.x + kernAdj f st.prev (f.glyphId c)
                  + f.advanceWidth (f.glyphId c), st.caret.y⟩,
                some (f.glyphId c)⟩ with ⟨o, st1⟩
          rw [hr] at hp
          cases o with
          | none => cases hp
          | some gs1 =>
            cases hp
            rw [countNL_cons_of_ne _ _ hnl]
            simpa using ih _ gs1 _ hr

/-- When a run aborts, the caret `y` has advanced by one `advance_height`
per newline in the consumed part of the run, plus exactly one for the forced
wrap itself. -/
theorem position_text_none_caret_y (f : Font) (wrap : WordWrap) :
    ∀ (s : List Char) (st : LayoutState) (st' : LayoutState),
    position_text f wrap s st = (none, st') →
    ∃ p q, s = p ++ q
      ∧ st'.caret.y = st.caret.y + f.advanceHeight * (countNL p + 1) := by
  intro s
  induction s with
  | nil =>
    intro st st' hp
    rw [position_text_nil] at hp
    cases hp
  | cons c rest ih =>
    intro st st' hp
    by_cases h1 : charIsControl c ∧ c = '\r'
    · rw [h1.2, position_text_cr] at hp
      obtain ⟨p, q, hpq, hy⟩ := ih st st' hp
      refine ⟨'\r' :: p, q, by rw [h1.2, hpq]; rfl, ?_⟩
      rw [countNL_cons_of_ne _ _ (by decide)]
      exact hy
    · by_cases h2 : charIsControl c ∧ c = '\n'
      · rw [h2.2, position_text_nl] at hp
        obtain ⟨p, q, hpq, hy⟩ := ih _ st' hp
        refine ⟨'\n' :: p, q, by rw [h2.2, hpq]; rfl, ?_⟩
        rw [countNL_cons_nl, hy]
        push_cast
        ring
      · rw [position_text_glyph f wrap c rest st h1 h2] at hp
        have hnl : c ≠ '\n' := fun hc => h2 ⟨by rw [hc]; decide, hc⟩
        by_cases ha : abortCheck f wrap (f.glyphId c)
            ⟨st.caret.x + kernAdj f st.prev (f.glyphId c), st.caret.y⟩
        · rw [if_pos ha] at hp
          cases hp
          refine ⟨[], c :: rest, rfl, ?_⟩
          simp [countNL_nil]
        · rw [if_neg ha] at hp
          rcases hr : position_text f wrap rest
              ⟨⟨st.caret.x + kernAdj f st.prev (f.glyphId c)
                  + f.advanceWidth (f.glyphId c), st.caret.y⟩,
                some (f.glyphId c)⟩ with ⟨o, st1⟩
          rw [hr] at hp
          cases o with
          | some gs1 => cases hp
          | none =>
            cases hp
            obtain ⟨p, q, hpq, hy⟩ := ih _ st' hr
            refine ⟨c :: p, q, by rw [hpq]; rfl, ?_⟩
            rw [countNL_cons_of_ne _ _ hnl]
            exact hy

/-- C4.  During a layout pass the caret `y` never decreases (for a font with
non-negative line advance); on a completed run it grows by `advance_height`
exactly once per newline character, on an aborted run exactly once per
newline in the consumed prefix plus once for the forced wrap itself; and a
literal newline resets the caret to `(0, y + advance_height)` while
contributing no glyph. -/
theorem c4_caret_y_monotone_and_counts :
    (∀ (f : Font) (wrap : WordWrap) (words : List (List Char)) (st : LayoutState),
      0 ≤ f.advanceHeight →
      st.caret.y ≤ (wordsLayout f wrap words st).2.caret.y)
    ∧ (∀ (f : Font) (wrap : WordWrap) (s : List Char) (st : LayoutState)
        (gs : List PGlyph) (st' : LayoutState),
        position_text f wrap s st = (some gs, st') →
        st'.caret.y = st.caret.y + f.advanceHeight * countNL s)
    ∧ (∀ (f : Font) (wrap : WordWrap) (s : List Char) (st st' : LayoutState),
        position_text f wrap s st = (none, st') →
        ∃ p q, s = p ++ q
          ∧ st'.caret.y = st.caret.y + f.advanceHeight * (countNL p + 1))
    ∧ (∀ (f : Font) (wrap : WordWrap) (rest : List Char) (st : LayoutState),
        position_text f wrap ('\n' :: rest) st
          = position_text f wrap rest ⟨⟨0, st.caret.y + f.advanceHeight⟩, st.prev⟩) :=
  ⟨wordsLayout_caret_y_mono, position_text_some_caret_y,
   position_text_none_caret_y, position_text_nl⟩

/-- Witness for C4: on a concrete font and text with one newline, the caret
`y` is monotone and lands exactly one `advance_height` down. -/
theorem c4_witness :
    ((0 : ℚ) ≤ monoFont.advanceHeight
      ∧ (⟨⟨0, 0⟩, none⟩ : LayoutState).caret.y
          ≤ (wordsLayout monoFont WordWrap.noWrap [['a'], ['\n'], ['b']]
              ⟨⟨0, 0⟩, none⟩).2.caret.y)
    ∧ (⟨⟨0, 10⟩, some 97⟩ : LayoutState).caret.y
        = (⟨⟨0, 0⟩, none⟩ : LayoutState).caret.y
          + monoFont.advanceHeight * countNL ['a', '\n'] :=
  ⟨⟨by norm_num [monoFont],
    c4_caret_y_monotone_and_counts.1 monoFont WordWrap.noWrap [['a'], ['\n'], ['b']]
      ⟨⟨0, 0⟩, none⟩ (by norm_num [monoFont])⟩,
   c4_caret_y_monotone_and_counts.2.1 monoFont WordWrap.noWrap ['a', '\n']
     ⟨⟨0, 0⟩, none⟩ [⟨97, ⟨0, 0⟩⟩] ⟨⟨0, 10⟩, some 97⟩
     (by
       norm_num [position_text, charIsControl, pixelBB, kernAdj, abortCheck,
         monoFont, toNat_lit_a]
       decide)⟩

theorem abortCheck_false_bound (f : Font) (w : ℕ) (g : ℕ) (caret : Pt)
    (h : abortCheck f (WordWrap.normal w) g caret = false) :
    ∀ bb, pixelBB f g caret = some bb → bb.maxX ≤ (w : ℤ) := by
  intro bb hbb
  unfold abortCheck at h
  rw [hbb] at h
  simpa using h

/-- Every glyph of a completed run under `Normal(w)` passed the overflow
check at the position it was emitted with. -/
theorem position_text_some_glyphs_bounded (f : Font) (w : ℕ) :
    ∀ (s : List Char) (st : LayoutState) (gs : List PGlyph) (st' : LayoutState),
    position_text f (WordWrap.normal w) s st = (some gs, st') →
    ∀ pg ∈ gs, ∀ bb, pixelBB f pg.id pg.pos = some bb → bb.maxX ≤ (w : ℤ) := by
  intro s
  induction s with
  | nil =>
    intro st gs st' hp
    rw [position_text_nil] at hp
    cases hp
    intro pg hpg
    simp at hpg
  | cons c rest ih =>
    intro st gs st' hp
    by_cases h1 : charIsControl c ∧ c = '\r'
    · rw [h1.2, position_text_cr] at hp
      exact ih st gs st' hp
    · by_cases h2 : charIsControl c ∧ c = '\n'
      · rw [h2.2, position_text_nl] at hp
        exact ih _ gs st' hp
      · rw [position_text_glyph f _ c rest st h1 h2] at hp
        by_cases ha : abortCheck f (WordWrap.normal w) (f.glyphId c)
            ⟨st.caret.x + kernAdj f st.prev (f.glyphId c), st.caret.y⟩
        · rw [if_pos ha] at hp; cases hp
        · rw [if_neg ha] at hp
          rcases hr : position_text f (WordWrap.normal w) rest
              ⟨⟨st.caret.x + kernAdj f st.prev (f.glyphId c)
                  + f.advanceWidth (f.glyphId c), st.caret.y⟩,
                some (f.glyphId c)⟩ with ⟨o, st1⟩
          rw [hr] at hp
          cases o with
          | none => cases hp
          | some gs1 =>
            cases hp
            intro pg hpg bb hbb
            rcases List.mem_cons.mp hpg with hhd | htl
            · subst hhd
              exact abortCheck_false_bound f w (f.glyphId c) _
                (Bool.not_eq_true _ ▸ eq_false_of_ne_true ha) bb hbb
            · exact ih _ gs1 _ hr pg htl bb hbb

/-- Every glyph emitted by a whole `Normal(w)` layout pass satisfies the
bound, whichever of the two per-word attempts produced it. -/
theorem wordsLayout_glyphs_bounded (f : Font) (w : ℕ) :
    ∀ (words : List (List Char)) (st : LayoutState),
    ∀ pg ∈ (wordsLayout f (WordWrap.normal w) words st).1,
    ∀ bb, pixelBB f pg.id pg.pos = some bb → bb.maxX ≤ (w : ℤ) := by
  intro words
  induction words with
  | nil =>
    intro st pg hpg
    simp [wordsLayout] at hpg
  | cons word ws ih =>
    intro st pg hpg bb hbb
    rcases hr : position_text f (WordWrap.normal w) word st with ⟨o, st1⟩
    cases o with
    | some gs =>
      simp only [wordsLayout, hr] at hpg
      rcases List.mem_append.mp hpg with hh | ht
      · exact position_text_some_glyphs_bounded f w word st gs st1 hr pg hh bb hbb
      · exact ih st1 pg ht bb hbb
    | none =>
      rcases hr2 : position_text f (WordWrap.normal w) word st1 with ⟨o2, st2⟩
      cases o2 with
      | some gs2 =>
        simp only [wordsLayout, hr, hr2] at hpg
        rcases List.mem_append.mp hpg with hh | ht
        · exact position_text_some_glyphs_bounded f w word st1 gs2 st2 hr2 pg hh bb hbb
        · exact ih st2 pg ht bb hbb
      | none =>
        simp only [wordsLayout, hr, hr2, List.nil_append] at hpg
        exact ih st2 pg hpg bb hbb

theorem countNL_eq_zero {p : List Char} (h : '\n' ∉ p) : countNL p = 0 := by
  simp only [countNL, List.length_eq_zero]
  rw [List.filter_eq_nil_iff]
  intro a ha
  simp only [decide_eq_true_eq]
  rintro rfl
  exact h ha

/-- On abort the returned caret sits at column 0 and the previous-glyph id is
the aborting glyph's — it is not cleared. -/
theorem position_text_none_state (f : Font) (wrap : WordWrap) :
    ∀ (s : List Char) (st st' : LayoutState),
    position_text f wrap s st = (none, st') →
    st'.caret.x = 0 ∧ ∃ g, st'.prev = some g := by
  intro s
  induction s with
  | nil =>
    intro st st' hp
    rw [position_text_nil] at hp
    cases hp
  | cons c rest ih =>
    intro st st' hp
    by_cases h1 : charIsControl c ∧ c = '\r'
    · rw [h1.2, position_text_cr] at hp
      exact ih st st' hp
    · by_cases h2 : charIsControl c ∧ c = '\n'
      · rw [h2.2, position_text_nl] at hp
        exact ih _ st' hp
      · rw [position_text_glyph f wrap c rest st h1 h2] at hp
        by_cases ha : abortCheck f wrap (f.glyphId c)
            ⟨st.caret.x + kernAdj f st.prev (f.glyphId c), st.caret.y⟩
        · rw [if_pos ha] at hp
          cases hp
          exact ⟨rfl, f.glyphId c, rfl⟩
        · rw [if_neg ha] at hp
          rcases hr : position_text f wrap rest
              ⟨⟨st.caret.x + kernAdj f st.prev (f.glyphId c)
                  + f.advanceWidth (f.glyphId c), st.caret.y⟩,
                some (f.glyphId c)⟩ with ⟨o, st1⟩
          rw [hr] at hp
          cases o with
          | some gs1 => cases hp
          | none =>
            cases hp
            exact ih _ st' hr

/-- C1 (amended).  When a segment without newlines aborts under wrapping, the
caret lands at `(0, y + advance_height)` and `previous_glyph_id` is left as
the overflowing glyph's id — it is *not* cleared; the word layout retries the
same segment exactly once from the returned state, and when the retry also
aborts the segment contributes no glyphs at all — it is dropped, not placed
at column 0. -/
theorem c1_wrap_abort_retry_drop :
    (∀ (f : Font) (wrap : WordWrap) (word : List Char) (st st' : LayoutState),
      '\n' ∉ word →
      position_text f wrap word st = (none, st') →
      st'.caret.x = 0 ∧ st'.caret.y = st.caret.y + f.advanceHeight
        ∧ ∃ g, st'.prev = some g)
    ∧ (∀ (f : Font) (wrap : WordWrap) (word : List Char) (ws : List (List Char))
        (st st1 : LayoutState),
        position_text f wrap word st = (none, st1) →
        (wordsLayout f wrap (word :: ws) st).1
          = (match (position_text f wrap word st1).1 with
             | some gs => gs
             | none => [])
            ++ (wordsLayout f wrap ws (position_text f wrap word st1).2).1) := by
  constructor
  · intro f wrap word st st' hnl hp
    obtain ⟨hx, hprev⟩ := position_text_none_state f wrap word st st' hp
    obtain ⟨p, q, hpq, hy⟩ := position_text_none_caret_y f wrap word st st' hp
    have hzero : countNL p = 0 :=
      countNL_eq_zero (fun hm => hnl (hpq ▸ List.mem_append_left q hm))
    refine ⟨hx, ?_, hprev⟩
    rw [hy, hzero]
    push_cast
    ring
  · intro f wrap word ws st st1 hp
    rcases hr2 : position_text f wrap word st1 with ⟨o2, st2⟩
    cases o2 <;> simp [wordsLayout, hp, hr2]

/-- Counterexample for C1 as stated: with an 8px-advance monospace font and a
20px limit, the word `"abc"` overflows at `'c'`; after the abort the
previous-glyph id holds `'c'`'s glyph (not cleared), and after the failed
retry the word's glyphs are dropped entirely instead of being placed at
column 0. -/
theorem c1_counterexample :
    (position_text monoFont (WordWrap.normal 20) ['a', 'b', 'c']
        ⟨⟨0, 0⟩, none⟩).2.prev = some 99
    ∧ (layout_normal_wrap monoFont 20 [['a', 'b', 'c']] ⟨⟨0, 0⟩, none⟩).1 = [] := by
  constructor <;>
    norm_num [layout_normal_wrap, wordsLayout, position_text, charIsControl,
      pixelBB, kernAdj, abortCheck, monoFont, toNat_lit_a, toNat_lit_b, toNat_lit_c]

/-- Witness for C1 (amended): the abort state and the dropped retry on the
concrete overflowing word. -/
theorem c1_witness :
    ((⟨⟨0, 10⟩, some 99⟩ : LayoutState).caret.x = 0
      ∧ (⟨⟨0, 10⟩, some 99⟩ : LayoutState).caret.y
          = (⟨⟨0, 0⟩, none⟩ : LayoutState).caret.y + monoFont.advanceHeight
      ∧ ∃ g, (⟨⟨0, 10⟩, some 99⟩ : LayoutState).prev = some g)
    ∧ (wordsLayout monoFont (WordWrap.normal 20) [['a', 'b', 'c']] ⟨⟨0, 0⟩, none⟩).1
        = (match (position_text monoFont (WordWrap.normal 20) ['a', 'b', 'c']
                ⟨⟨0, 10⟩, some 99⟩).1 with
           | some gs => gs
           | none => [])
          ++ (wordsLayout monoFont (WordWrap.normal 20) []
              (position_text monoFont (WordWrap.normal 20) ['a', 'b', 'c']
                ⟨⟨0, 10⟩, some 99⟩).2).1 := by
  have hab : position_text monoFont (WordWrap.normal 20) ['a', 'b', 'c']
      ⟨⟨0, 0⟩, none⟩ = (none, ⟨⟨0, 10⟩, some 99⟩) := by
    norm_num [position_text, charIsControl, pixelBB, kernAdj, abortCheck,
      monoFont, toNat_lit_a, toNat_lit_b, toNat_lit_c]
  exact ⟨c1_wrap_abort_retry_drop.1 monoFont (WordWrap.normal 20) ['a', 'b', 'c']
      ⟨⟨0, 0⟩, none⟩ ⟨⟨0, 10⟩, some 99⟩ (by decide) hab,
    c1_wrap_abort_retry_drop.2 monoFont (WordWrap.normal 20) ['a', 'b', 'c'] []
      ⟨⟨0, 0⟩, none⟩ ⟨⟨0, 10⟩, some 99⟩ hab⟩

/-- C2 (amended).  Under `Normal(w)` every glyph that is actually emitted has
its pixel bounding box right edge within `w` — with no exception: a word
wider than `w` is dropped, not emitted at column 0. -/
theorem c2_normal_wrap_glyphs_within_limit :
    ∀ (f : Font) (w : ℕ) (words : List (List Char)) (st : LayoutState),
    ∀ pg ∈ (layout_normal_wrap f w words st).1,
    ∀ bb, pixelBB f pg.id pg.pos = some bb → bb.maxX ≤ (w : ℤ) :=
  fun f w words st => wordsLayout_glyphs_bounded f w words st

/-- A font whose every glyph is 30px wide (advance 30). -/
def wideFont : Font :=
  ⟨fun c => c.toNat, fun _ => 30, fun _ _ => 0, fun _ => some ⟨0, 0, 30, 8⟩, 10⟩

/-- Counterexample for C2 as stated: the two-glyph word `"ab"` is 60px wide,
wider than the 40px limit; the claim says it is emitted unbroken at column 0,
but the layout aborts twice and emits nothing at all. -/
theorem c2_counterexample :
    (position_text wideFont (WordWrap.normal 40) ['a', 'b'] ⟨⟨0, 0⟩, none⟩).1 = none
    ∧ (layout_normal_wrap wideFont 40 [['a', 'b']] ⟨⟨0, 0⟩, none⟩).1 = [] := by
  constructor <;>
    norm_num [layout_normal_wrap, wordsLayout, position_text, charIsControl,
      pixelBB, kernAdj, abortCheck, wideFont, toNat_lit_a, toNat_lit_b]

/-- Witness for C2 (amended): a fitting glyph is emitted and its bounding box
right edge respects the limit. -/
theorem c2_witness :
    (⟨97, ⟨0, 0⟩⟩ : PGlyph) ∈ (layout_normal_wrap monoFont 20 [['a']] ⟨⟨0, 0⟩, none⟩).1
    ∧ ((⟨0, 0, 8, 8⟩ : IRect).maxX ≤ (20 : ℤ)) := by
  have hm : (⟨97, ⟨0, 0⟩⟩ : PGlyph)
      ∈ (layout_normal_wrap monoFont 20 [['a']] ⟨⟨0, 0⟩, none⟩).1 := by
    norm_num [layout_normal_wrap, wordsLayout, position_text, charIsControl,
      pixelBB, kernAdj, abortCheck, monoFont, toNat_lit_a]
  have hbb : pixelBB monoFont 97 ⟨0, 0⟩ = some ⟨0, 0, 8, 8⟩ := by
    norm_num [pixelBB, monoFont]
  exact ⟨hm, c2_normal_wrap_glyphs_within_limit monoFont 20 [['a']]
    ⟨⟨0, 0⟩, none⟩ ⟨97, ⟨0, 0⟩⟩ hm ⟨0, 0, 8, 8⟩ hbb⟩

/-!
## Atlas cache lemmas
-/

theorem Atlas.place_dims (a : Atlas) (w h : ℕ) (r : ARect) (a' : Atlas)
    (hp : a.place w h = some (r, a')) :
    a'.width = a.width ∧ a'.height = a.height := by
  unfold Atlas.place at hp
  split_ifs at hp <;> cases hp <;> exact ⟨rfl, rfl⟩

theorem Atlas.clear_place_none (a : Atlas) (w h : ℕ)
    (hp : (a.clear).place w h = none) : a.width < w ∨ a.height < h := by
  simp only [Atlas.clear, Atlas.place, zero_add] at hp
  split_ifs at hp with h1
  rcases not_and_or.mp h1 with h | h
  · exact Or.inl (lt_of_not_le h)
  · exact Or.inr (lt_of_not_le h)

theorem Atlas.clear_place_some (a : Atlas) (w h : ℕ)
    (hw : w ≤ a.width) (hh : h ≤ a.height) :
    ∃ r a', (a.clear).place w h = some (r, a') := by
  simp only [Atlas.clear, Atlas.place, zero_add]
  rw [if_pos ⟨hw, hh⟩]
  exact ⟨_, _, rfl⟩

theorem Atlas.insertGlyph_none (a : Atlas) (g w h : ℕ)
    (hp : a.insertGlyph g w h = none) : a.width < w ∨ a.height < h := by
  unfold Atlas.insertGlyph at hp
  split_ifs at hp
  cases hpl : a.place w h with
  | some pr => rw [hpl] at hp; cases hp
  | none =>
    rw [hpl] at hp
    cases hcl : (a.clear).place w h with
    | some pr2 => rw [hcl] at hp; cases hp
    | none => exact Atlas.clear_place_none a w h hcl

theorem Atlas.insertGlyph_some_dims (a : Atlas) (g w h : ℕ) (a' : Atlas)
    (hp : a.insertGlyph g w h = some a') :
    a'.width = a.width ∧ a'.height = a.height := by
  unfold Atlas.insertGlyph at hp
  split_ifs at hp
  · cases hp; exact ⟨rfl, rfl⟩
  · cases hpl : a.place w h with
    | some pr =>
      obtain ⟨r, a1⟩ := pr
      rw [hpl] at hp
      cases hp
      exact Atlas.place_dims a w h r a1 hpl
    | none =>
      rw [hpl] at hp
      cases hcl : (a.clear).place w h with
      | some pr2 =>
        obtain ⟨r2, a2⟩ := pr2
        rw [hcl] at hp
        cases hp
        have := Atlas.place_dims _ w h r2 a2 hcl
        simpa [Atlas.clear] using this
      | none => rw [hcl] at hp; cases hp

theorem Atlas.insertGlyph_isSome_of_fit (a : Atlas) (g w h : ℕ)
    (hw : w ≤ a.width) (hh : h ≤ a.height) :
    ∃ a', a.insertGlyph g w h = some a' := by
  unfold Atlas.insertGlyph
  split_ifs
  · exact ⟨a, rfl⟩
  · cases hpl : a.place w h with
    | some pr => exact ⟨_, rfl⟩
    | none =>
      obtain ⟨r2, a2, hcl⟩ := Atlas.clear_place_some a w h hw hh
      rw [hcl]
      exact ⟨_, rfl⟩

/-- The flush never errors when every queued glyph individually fits the atlas
— however many glyphs are queued, pressure is absorbed by eviction. -/
theorem Atlas.flush_some_of_fits :
    ∀ (q : List (ℕ × ℕ × ℕ)) (a : Atlas),
    (∀ e ∈ q, e.2.1 ≤ a.width ∧ e.2.2 ≤ a.height) →
    ∃ a', a.flush q = some a' := by
  intro q
  induction q with
  | nil => intro a _; exact ⟨a, rfl⟩
  | cons e rest ih =>
    intro a hfit
    obtain ⟨g, w, h⟩ := e
    obtain ⟨a1, hi⟩ := Atlas.insertGlyph_isSome_of_fit a g w h
      (hfit (g, w, h) (List.mem_cons_self _ _)).1
      (hfit (g, w, h) (List.mem_cons_self _ _)).2
    obtain ⟨hwd, hhd⟩ := Atlas.insertGlyph_some_dims a g w h a1 hi
    have hrest : ∀ e' ∈ rest, e'.2.1 ≤ a1.width ∧ e'.2.2 ≤ a1.height := by
      intro e' he'
      rw [hwd, hhd]
      exact hfit e' (List.mem_cons_of_mem _ he')
    obtain ⟨a2, hfl⟩ := ih a1 hrest
    refine ⟨a2, ?_⟩
    simp only [Atlas.flush, hi]
    exact hfl

/-- The flush errors only when some queued glyph is, on its own, larger than
the whole atlas. -/
theorem Atlas.flush_none_oversized :
    ∀ (q : List (ℕ × ℕ × ℕ)) (a : Atlas),
    a.flush q = none →
    ∃ e ∈ q, a.width < e.2.1 ∨ a.height < e.2.2 := by
  intro q
  induction q with
  | nil => intro a hp; cases hp
  | cons e rest ih =>
    intro a hp
    obtain ⟨g, w, h⟩ := e
    cases hi : a.insertGlyph g w h with
    | none =>
      exact ⟨(g, w, h), List.mem_cons_self _ _, Atlas.insertGlyph_none a g w h hi⟩
    | some a1 =>
      simp only [Atlas.flush, hi] at hp
      obtain ⟨e', he', hbig⟩ := ih a1 hp
      obtain ⟨hwd, hhd⟩ := Atlas.insertGlyph_some_dims a g w h a1 hi
      exact ⟨e', List.mem_cons_of_mem _ he', by rw [← hwd, ← hhd]; exact hbig⟩

/-- Flushing a queue whose every glyph is already resident leaves the atlas
untouched. -/
theorem Atlas.flush_resident :
    ∀ (q : List (ℕ × ℕ × ℕ)) (a : Atlas),
    (∀ e ∈ q, ((a.slots.map Prod.fst).contains e.1) = true) →
    a.flush q = some a := by
  intro q
  induction q with
  | nil => intro a _; rfl
  | cons e rest ih =>
    intro a hres
    obtain ⟨g, w, h⟩ := e
    have hg : ((a.slots.map Prod.fst).contains g) = true :=
      hres (g, w, h) (List.mem_cons_self _ _)
    have hi : a.insertGlyph g w h = some a := by
      unfold Atlas.insertGlyph
      rw [if_pos hg]
    simp only [Atlas.flush, hi]
    exact ih a (fun e' he' => hres e' (List.mem_cons_of_mem _ he'))

/-- C7.  The atlas flush fails only when a single queued glyph's bitmap is
larger than the entire atlas; when every queued glyph fits individually,
flush succeeds however many glyphs are queued (cache pressure is absorbed by
eviction); and a `set_text` error therefore always exhibits such an
oversized glyph. -/
theorem c7_flush_errors_only_on_oversized_glyph :
    (∀ (a : Atlas) (q : List (ℕ × ℕ × ℕ)),
      (∀ e ∈ q, e.2.1 ≤ a.width ∧ e.2.2 ≤ a.height) →
      ∃ a', a.flush q = some a')
    ∧ (∀ (a : Atlas) (q : List (ℕ × ℕ × ℕ)),
      a.flush q = none →
      ∃ e ∈ q, a.width < e.2.1 ∨ a.height < e.2.2)
    ∧ (∀ (f : Font) (st : TextState) (words : List (List Char)) (st' : TextState),
      set_text f st words = (st', true) →
      ∃ e ∈ queuedOf f (wordsLayout f st.wrap words ⟨⟨0, 0⟩, none⟩).1,
        st.atlas.width < e.2.1 ∨ st.atlas.height < e.2.2) := by
  refine ⟨fun a q => Atlas.flush_some_of_fits q a,
    fun a q => Atlas.flush_none_oversized q a, ?_⟩
  intro f st words st' hp
  simp only [set_text] at hp
  cases hfl : st.atlas.flush
      (queuedOf f (wordsLayout f st.wrap words ⟨⟨0, 0⟩, none⟩).1) with
  | some a1 => rw [hfl] at hp; cases hp
  | none =>
    exact Atlas.flush_none_oversized _ st.atlas hfl

/-- Witness for C7: three full-atlas-sized glyphs — three times the capacity
of the atlas — flush without error. -/
theorem c7_witness :
    (∀ e ∈ ([(1, 16, 16), (2, 16, 16), (3, 16, 16)] : List (ℕ × ℕ × ℕ)),
      e.2.1 ≤ (Atlas.empty 16 16).width ∧ e.2.2 ≤ (Atlas.empty 16 16).height)
    ∧ ∃ a', (Atlas.empty 16 16).flush [(1, 16, 16), (2, 16, 16), (3, 16, 16)]
        = some a' :=
  ⟨by decide, c7_flush_errors_only_on_oversized_glyph.1 (Atlas.empty 16 16)
    [(1, 16, 16), (2, 16, 16), (3, 16, 16)] (by decide)⟩

/-- C8.  A glyph with no visible bounding box (such as a space) still
advances the caret by its kerning-adjusted advance width and is recorded as a
positioned glyph — it can never trigger a wrap — but it is never queued into
the atlas and contributes no sprite. -/
theorem c8_no_bbox_advances_caret_but_not_queued :
    (∀ (f : Font) (wrap : WordWrap) (c : Char) (st : LayoutState),
      charIsControl c = false →
      f.bbox (f.glyphId c) = none →
      position_text f wrap [c] st
        = (some [⟨f.glyphId c,
              ⟨st.caret.x + kernAdj f st.prev (f.glyphId c), st.caret.y⟩⟩],
           ⟨⟨st.caret.x + kernAdj f st.prev (f.glyphId c)
               + f.advanceWidth (f.glyphId c), st.caret.y⟩,
             some (f.glyphId c)⟩))
    ∧ (∀ (f : Font) (pos : Pt) (pgs : List PGlyph) (g : ℕ),
      f.bbox g = none →
      queuedOf f (⟨g, pos⟩ :: pgs) = queuedOf f pgs)
    ∧ (∀ (f : Font) (a : Atlas) (posn : Pt) (g : ℕ) (pos : Pt),
      f.bbox g = none →
      spriteFor f a posn ⟨g, pos⟩ = none) := by
  refine ⟨?_, ?_, ?_⟩
  · intro f wrap c st hc hb
    have h1 : ¬(charIsControl c ∧ c = '\r') := fun hx => by
      rw [hc] at hx; exact absurd hx.1 (by simp)
    have h2 : ¬(charIsControl c ∧ c = '\n') := fun hx => by
      rw [hc] at hx; exact absurd hx.1 (by simp)
    rw [position_text_glyph f wrap c [] st h1 h2,
      if_neg (by simp [abortCheck_no_bbox f wrap _ _ hb]), position_text_nil]
  · intro f pos pgs g hb
    simp [queuedOf, pixelBB, hb]
  · intro f a posn g pos hb
    cases hres : a.resolve g <;> simp [spriteFor, pixelBB, hb, hres]

/-- A font whose space glyph (id 32) has no bounding box; every other glyph
is a 4×4 box, advance 4. -/
def spaceFont : Font :=
  ⟨fun c => c.toNat, fun _ => 4, fun _ _ => 0,
   fun g => if g = 32 then none else some ⟨0, 0, 4, 4⟩, 10⟩

/-- Witness for C8: a space advances the caret by 4px, is recorded as a
positioned glyph, is not queued, and yields no sprite. -/
theorem c8_witness :
    (charIsControl ' ' = false
      ∧ spaceFont.bbox (spaceFont.glyphId ' ') = none
      ∧ position_text spaceFont WordWrap.noWrap [' '] ⟨⟨0, 0⟩, none⟩
          = (some [⟨32, ⟨0, 0⟩⟩], ⟨⟨4, 0⟩, some 32⟩))
    ∧ queuedOf spaceFont [⟨32, ⟨0, 0⟩⟩] = queuedOf spaceFont []
    ∧ spriteFor spaceFont (Atlas.empty 64 64) ⟨0, 0⟩ ⟨32, ⟨0, 0⟩⟩ = none := by
  have hb : spaceFont.bbox (spaceFont.glyphId ' ') = none := by
    norm_num [spaceFont, toNat_lit_space]
  refine ⟨⟨by decide, hb, ?_⟩, ?_, ?_⟩
  · rw [c8_no_bbox_advances_caret_but_not_queued.1 spaceFont WordWrap.noWrap ' '
      ⟨⟨0, 0⟩, none⟩ (by decide) hb]
    norm_num [kernAdj, spaceFont, toNat_lit_space]
  · exact c8_no_bbox_advances_caret_but_not_queued.2.1 spaceFont ⟨0, 0⟩ [] 32
      (by norm_num [spaceFont])
  · exact c8_no_bbox_advances_caret_but_not_queued.2.2 spaceFont
      (Atlas.empty 64 64) ⟨0, 0⟩ 32 ⟨0, 0⟩ (by norm_num [spaceFont])

/-- C6 (amended).  When `set_text` returns an error (the atlas flush failed),
the sprite list and the atlas keep their previous values — but the caret and
previous-glyph id have already been overwritten with the result of the full
positioning pass over the *new* text, so a partially updated state *is*
observable. -/
theorem c6_set_text_error_mixed_state :
    ∀ (f : Font) (st : TextState) (words : List (List Char)) (st' : TextState),
    set_text f st words = (st', true) →
    st'.sprites = st.sprites ∧ st'.atlas = st.atlas
      ∧ st'.caret = (wordsLayout f st.wrap words ⟨⟨0, 0⟩, none⟩).2.caret
      ∧ st'.prev = (wordsLayout f st.wrap words ⟨⟨0, 0⟩, none⟩).2.prev
      ∧ st'.wrap = st.wrap ∧ st'.position = st.position := by
  intro f st words st' hp
  simp only [set_text] at hp
  cases hfl : st.atlas.flush
      (queuedOf f (wordsLayout f st.wrap words ⟨⟨0, 0⟩, none⟩).1) with
  | some a1 => rw [hfl] at hp; cases hp
  | none =>
    rw [hfl] at hp
    cases hp
    exact ⟨rfl, rfl, rfl, rfl, rfl, rfl⟩

/-- A font whose glyphs are 10×10 bitmaps — too large for a 4×4 atlas. -/
def bigFont : Font :=
  ⟨fun c => c.toNat, fun _ => 8, fun _ _ => 0, fun _ => some ⟨0, 0, 10, 10⟩, 12⟩

/-- A `Text` whose caret still reflects an earlier layout, with a 4×4 atlas. -/
def st6 : TextState :=
  ⟨WordWrap.noWrap, ⟨0, 0⟩, ⟨5, 7⟩, none, [], Atlas.empty 4 4⟩

/-- Counterexample for C6 as stated: `set_text` fails (the 10×10 glyph cannot
fit the 4×4 atlas), yet the externally visible caret has changed — the
failed call is observable, so the operation is not atomic. -/
theorem c6_counterexample :
    (set_text bigFont st6 [['a']]).2 = true
    ∧ (set_text bigFont st6 [['a']]).1.caret ≠ st6.caret := by
  constructor <;>
  · norm_num [set_text, st6, bigFont, wordsLayout, position_text, charIsControl,
      pixelBB, kernAdj, abortCheck, queuedOf, Atlas.flush, Atlas.insertGlyph,
      Atlas.place, Atlas.clear, Atlas.empty, toNat_lit_a]
    try decide

/-- A second failing state for the witness of the amended C6. -/
def st6b : TextState :=
  ⟨WordWrap.noWrap, ⟨1, 1⟩, ⟨0, 0⟩, none, [], Atlas.empty 4 4⟩

/-- Witness for C6 (amended): on a concrete failing call, the sprites and
atlas are unchanged while the caret equals the new text's positioning
result. -/
theorem c6_witness :
    (set_text bigFont st6b [['b']]).2 = true
    ∧ (set_text bigFont st6b [['b']]).1.sprites = st6b.sprites
    ∧ (set_text bigFont st6b [['b']]).1.atlas = st6b.atlas
    ∧ (set_text bigFont st6b [['b']]).1.caret
        = (wordsLayout bigFont st6b.wrap [['b']] ⟨⟨0, 0⟩, none⟩).2.caret := by
  have hp : (set_text bigFont st6b [['b']]).2 = true := by
    norm_num [set_text, st6b, bigFont, wordsLayout, position_text, charIsControl,
      pixelBB, kernAdj, abortCheck, queuedOf, Atlas.flush, Atlas.insertGlyph,
      Atlas.place, Atlas.clear, Atlas.empty, toNat_lit_b]
  have hfull : set_text bigFont st6b [['b']]
      = ((set_text bigFont st6b [['b']]).1, true) := by
    rw [← hp]
  have key := c6_set_text_error_mixed_state bigFont st6b [['b']]
    (set_text bigFont st6b [['b']]).1 hfull
  exact ⟨hp, key.1, key.2.1, key.2.2.1⟩

/-- C9.  `set_text` is idempotent: a successful call after which every queued
glyph is resident (no atlas pressure) can be repeated with the same text and
returns exactly the same state — in particular identical sprite output. -/
theorem c9_set_text_idempotent :
    ∀ (f : Font) (st : TextState) (words : List (List Char)) (st1 : TextState),
    set_text f st words = (st1, false) →
    (∀ e ∈ queuedOf f (wordsLayout f st.wrap words ⟨⟨0, 0⟩, none⟩).1,
      ((st1.atlas.slots.map Prod.fst).contains e.1) = true) →
    set_text f st1 words = (st1, false) := by
  intro f st words st1 hp hres
  simp only [set_text] at hp
  cases hfl : st.atlas.flush
      (queuedOf f (wordsLayout f st.wrap words ⟨⟨0, 0⟩, none⟩).1) with
  | none => rw [hfl] at hp; cases hp
  | some a1 =>
    rw [hfl] at hp
    cases hp
    simp only [set_text]
    rw [Atlas.flush_resident _ _ (by simpa using hres)]

/-- A fresh `Text` with a 64×64 atlas. -/
def st9 : TextState :=
  ⟨WordWrap.noWrap, ⟨0, 0⟩, ⟨0, 0⟩, none, [], Atlas.empty 64 64⟩

/-- The state produced by `set_text` of `"a"` on `st9`: caret advanced to 8,
the glyph resident at atlas rect `(0,0,8,8)`, one sprite. -/
def st9out : TextState :=
  ⟨WordWrap.noWrap, ⟨0, 0⟩, ⟨8, 0⟩, some 97,
   [(⟨⟨0, 0⟩, ⟨8, 8⟩, ⟨1/8, 1/8⟩⟩, ⟨⟨0, -8⟩, ⟨64, 64⟩⟩)],
   ⟨64, 64, 8, 0, 8, [(97, ⟨0, 0, 8, 8⟩)]⟩⟩

/-- Witness for C9: repeating `set_text "a"` on the state the first call
produced returns that state unchanged. -/
theorem c9_witness : set_text monoFont st9out [['a']] = (st9out, false) := by
  have h1 : set_text monoFont st9 [['a']] = (st9out, false) := by
    norm_num [set_text, st9, st9out, monoFont, wordsLayout, position_text,
      charIsControl, pixelBB, kernAdj, abortCheck, queuedOf, Atlas.flush,
      Atlas.insertGlyph, Atlas.place, Atlas.clear, Atlas.empty, Atlas.resolve,
      spriteFor, composeSprite, normRect, List.find?, List.filterMap_cons,
      List.filterMap_nil, Int.toNat_ofNat, toNat_lit_a]
    rw [show Int.toNat 8 = 8 from rfl]
    norm_num
  have h2 : ∀ e ∈ queuedOf monoFont
      (wordsLayout monoFont st9.wrap [['a']] ⟨⟨0, 0⟩, none⟩).1,
      ((st9out.atlas.slots.map Prod.fst).contains e.1) = true := by
    norm_num [st9, st9out, monoFont, wordsLayout, position_text, charIsControl,
      pixelBB, kernAdj, abortCheck, queuedOf, toNat_lit_a]
    try decide
  exact c9_set_text_idempotent monoFont st9 [['a']] st9out h1 h2

/-- The quad descriptor of spec §4.4, built from the spec's own words:
`uv_origin = R.origin / A`, `uv_size = R.size / A`,
`transform.translation = S.origin`, `transform.scale = S.size`. -/
structure QuadDescriptor where
  translation : Pt
  scale : Pt
  uvOrigin : Pt
  uvSize : Pt
deriving DecidableEq, Repr

/-- The composition the spec claims (§4.4), for comparison with the source's
`composeSprite`. -/
def composeQuadSpec (R : ARect) (S : IRect) (A : ℕ × ℕ) : QuadDescriptor :=
  ⟨⟨(S.minX : ℚ), (S.minY : ℚ)⟩,
   ⟨((S.maxX - S.minX : ℤ) : ℚ), ((S.maxY - S.minY : ℤ) : ℚ)⟩,
   ⟨(R.x : ℚ) / A.1, (R.y : ℚ) / A.2⟩,
   ⟨(R.w : ℚ) / A.1, (R.h : ℚ) / A.2⟩⟩

/-- Counterexample for C5 as stated: at atlas rect `R = (20,30,10,12)` in a
512×512 atlas and screen rect `S = (2,3)-(12,15)`, the code's sprite disagrees
with the spec's composition on every component: its texture rect is in atlas
pixels (not normalized), its translation is `(S.min.x, -S.max.y)` (not
`S.origin`), and its scale is the atlas width pair (not `S.size`). -/
theorem c5_counterexample :
    (composeSprite ((512 : ℕ) : ℚ) ⟨0, 0⟩ (normRect 512 512 ⟨20, 30, 10, 12⟩)
        ⟨2, 3, 12, 15⟩).2.scale
      ≠ (composeQuadSpec ⟨20, 30, 10, 12⟩ ⟨2, 3, 12, 15⟩ (512, 512)).scale
    ∧ (composeSprite ((512 : ℕ) : ℚ) ⟨0, 0⟩ (normRect 512 512 ⟨20, 30, 10, 12⟩)
        ⟨2, 3, 12, 15⟩).2.translation
      ≠ (composeQuadSpec ⟨20, 30, 10, 12⟩ ⟨2, 3, 12, 15⟩ (512, 512)).translation
    ∧ (composeSprite ((512 : ℕ) : ℚ) ⟨0, 0⟩ (normRect 512 512 ⟨20, 30, 10, 12⟩)
        ⟨2, 3, 12, 15⟩).1.texOrigin
      ≠ (composeQuadSpec ⟨20, 30, 10, 12⟩ ⟨2, 3, 12, 15⟩ (512, 512)).uvOrigin
    ∧ (composeSprite ((512 : ℕ) : ℚ) ⟨0, 0⟩ (normRect 512 512 ⟨20, 30, 10, 12⟩)
        ⟨2, 3, 12, 15⟩).1.texSize
      ≠ (composeQuadSpec ⟨20, 30, 10, 12⟩ ⟨2, 3, 12, 15⟩ (512, 512)).uvSize := by
  norm_num [composeSprite, normRect, composeQuadSpec, Pt.mk.injEq]

/-- C5 (amended).  For a square atlas of width `W`, the sprite the source
composes from the cache's normalized rect of `R` and screen rect `S` carries
the atlas rect back in *pixels* (`texture_rect = R`), the normalized size in
`sprite.size`, translation `(S.min.x, -S.max.y) + position`, and scale
`(W, W)` — the atlas width, not the screen size. -/
theorem c5_compose_actual (W : ℕ) (hW : (W : ℚ) ≠ 0) (pos : Pt)
    (R : ARect) (S : IRect) :
    composeSprite (W : ℚ) pos (normRect W W R) S
      = (⟨⟨(R.x : ℚ), (R.y : ℚ)⟩, ⟨(R.w : ℚ), (R.h : ℚ)⟩,
          ⟨(R.w : ℚ) / W, (R.h : ℚ) / W⟩⟩,
         ⟨⟨(S.minX : ℚ) + pos.x, -(S.maxY : ℚ) + pos.y⟩, ⟨(W : ℚ), (W : ℚ)⟩⟩) := by
  simp only [composeSprite, normRect, Prod.mk.injEq, SpriteQ.mk.injEq,
    TransformQ.mk.injEq, Pt.mk.injEq]
  repeat' apply And.intro
  all_goals field_simp

/-- Witness for C5 (amended): the composition evaluated at a concrete slot. -/
theorem c5_witness :
    ((512 : ℚ) ≠ 0)
    ∧ composeSprite ((512 : ℕ) : ℚ) ⟨1, 2⟩ (normRect 512 512 ⟨20, 30, 10, 12⟩)
        ⟨2, 3, 12, 15⟩
      = (⟨⟨20, 30⟩, ⟨10, 12⟩, ⟨10 / 512, 12 / 512⟩⟩,
         ⟨⟨3, -13⟩, ⟨512, 512⟩⟩) := by
  refine ⟨by norm_num, ?_⟩
  rw [c5_compose_actual 512 (by norm_num) ⟨1, 2⟩ ⟨20, 30, 10, 12⟩ ⟨2, 3, 12, 15⟩]
  norm_num

/-- A laid-out `Text` whose single sprite sits at translation `(3, 4)`. -/
def st10 : TextState :=
  ⟨WordWrap.noWrap, ⟨0, 0⟩, ⟨16, 0⟩, some 97,
   [(⟨⟨0, 0⟩, ⟨8, 8⟩, ⟨1, 1⟩⟩, ⟨⟨3, 4⟩, ⟨512, 512⟩⟩)], Atlas.empty 4 4⟩

/-- Counterexample for C10 as stated: `position((1,2))` on a sprite whose
transform already holds `(3, 4)` yields translation `(1, 2)`, not the claimed
cumulative `(3+1, 4+2) = (4, 6)` — `translate_mut` assigns. -/
theorem c10_counterexample :
    (textPosition ⟨1, 2⟩ st10).sprites.map (fun s => s.2.translation) = [⟨1, 2⟩]
    ∧ ¬((textPosition ⟨1, 2⟩ st10).sprites.map (fun s => s.2.translation)
        = st10.sprites.map (fun s =>
            ⟨s.2.translation.x + 1, s.2.translation.y + 2⟩)) := by
  constructor <;> norm_num [textPosition, st10, Pt.mk.injEq]

/-- C10 (amended).  `Text::position(p)` *replaces* the translation of every
sprite transform with `p` (it does not add), stores `p`, and touches nothing
else — no re-layout, no atlas access, caret and sprite geometry unchanged;
consequently the update is absolute, not cumulative: a second call overwrites
the first. -/
theorem c10_position_replaces_translation :
    ∀ (p : Pt) (st : TextState),
    (textPosition p st).sprites
        = st.sprites.map (fun s => (s.1, { s.2 with translation := p }))
      ∧ (textPosition p st).position = p
      ∧ (textPosition p st).caret = st.caret
      ∧ (textPosition p st).prev = st.prev
      ∧ (textPosition p st).wrap = st.wrap
      ∧ (textPosition p st).atlas = st.atlas
      ∧ ∀ q, textPosition q (textPosition p st) = textPosition q st := by
  intro p st
  refine ⟨rfl, rfl, rfl, rfl, rfl, rfl, ?_⟩
  intro q
  simp only [textPosition, List.map_map]
  rfl
